import Mathlib

/-!
# backupstore: S3 and Azure-Blob drivers

A shallow embedding of `s3/s3.go`, `azblob/azblob.go` and
`azblob/azblob_service.go`, and theorems about the drivers' contract.

Conventions of the embedding

* A Go `string` is a `Str` (a list of characters).  Every string operation of
  the drivers is a concatenation, a test for a literal such as `/`, or a
  cut at a position found by such a test, so nothing depends on the encoding.
* Calls that leave the process (the Azure container client, the S3 service,
  the environment, `url.Parse`) are arguments of the embedded functions.
  A call that mutates the backend threads the backend state `σ` explicitly.
* A Go `(T, error)` result is an `Except Err T`, a bare `error` an `Option Err`.
-/

namespace Backupstore

/-- Go strings. -/
abbrev Str := List Char

/-! ## The Go standard library, as far as the drivers use it -/

namespace strings

/-- Go `strings.HasPrefix(s, p)`. -/
def HasPrefix (s p : Str) : Bool := p.isPrefixOf s

/-- Go `strings.HasSuffix(s, p)`. -/
def HasSuffix (s p : Str) : Bool := p.isSuffixOf s

/-- Go `strings.TrimPrefix(s, p)`: `s` without the leading `p`, if it has it. -/
def TrimPrefix (s p : Str) : Str :=
  if HasPrefix s p then s.drop p.length else s

/-- Go `strings.TrimSuffix(s, p)`: `s` without the trailing `p`, if it has it. -/
def TrimSuffix (s p : Str) : Str :=
  if HasSuffix s p then s.take (s.length - p.length) else s

/-- Go `strings.TrimLeft(s, cutset)`: drops every leading character of the cutset. -/
def TrimLeft (s cutset : Str) : Str := s.dropWhile (fun c => cutset.contains c)

/-- Go `strings.TrimRight(s, cutset)`: drops every trailing character of the cutset. -/
def TrimRight (s cutset : Str) : Str :=
  (s.reverse.dropWhile (fun c => cutset.contains c)).reverse

/-- Go `strings.Contains(s, sub)`. -/
def Contains : Str → Str → Bool
  | [], sub => sub.isEmpty
  | c :: s, sub => sub.isPrefixOf (c :: s) || Contains s sub

/-- Go `strings.Join(elems, sep)`. -/
def Join : List Str → Str → Str
  | [], _ => []
  | [e], _ => e
  | e :: es, sep => e ++ sep ++ Join es sep

end strings

namespace filepath

/-- Go `os.IsPathSeparator` on a POSIX system. -/
def IsPathSeparator (c : Char) : Bool := c == '/'

/-- The inner loop of the `..` case of `Clean`: starting from write index `w`,
step back while `w > dotdot` and the byte at `w` is not a separator. -/
def backtrack (old : Str) (dotdot : Nat) : Nat → Nat
  | 0 => 0
  | w + 1 =>
    if dotdot < w + 1 && !IsPathSeparator (old.getD (w + 1) '/') then
      backtrack old dotdot w
    else w + 1

/-- The main loop of `filepath.Clean`.  `rest` is `path[r:]`, `out` the bytes
written so far (`out.w` is its length), `dotdot` the index where `..` must
stop.  Every iteration consumes at least one byte of `rest`; the first
argument bounds the number of iterations. -/
def cleanLoop (rooted : Bool) : Nat → Str → Str → Nat → Str
  | 0, _, out, _ => out
  | _ + 1, [], out, _ => out
  | fuel + 1, c :: rest, out, dotdot =>
    if IsPathSeparator c then
      -- empty path element
      cleanLoop rooted fuel rest out dotdot
    else if c == '.' && (rest.isEmpty || IsPathSeparator (rest.headD '/')) then
      -- . element
      cleanLoop rooted fuel rest out dotdot
    else if c == '.' && rest.headD '/' == '.' &&
        (rest.tail.isEmpty || IsPathSeparator (rest.tail.headD '/')) then
      -- .. element: remove to last separator
      if dotdot < out.length then
        cleanLoop rooted fuel rest.tail
          (out.take (backtrack out dotdot (out.length - 1))) dotdot
      else if !rooted then
        let out1 := (if 0 < out.length then out ++ ['/'] else out) ++ ['.', '.']
        cleanLoop rooted fuel rest.tail out1 out1.length
      else
        cleanLoop rooted fuel rest.tail out dotdot
    else
      -- real path element: add slash if needed, copy element
      let out1 :=
        if (rooted && out.length != 1) || (!rooted && out.length != 0) then out ++ ['/']
        else out
      cleanLoop rooted fuel (rest.dropWhile (fun x => !IsPathSeparator x))
        (out1 ++ c :: rest.takeWhile (fun x => !IsPathSeparator x)) dotdot

/-- Go `filepath.Clean` on a POSIX system (no volume name). -/
def Clean (path : Str) : Str :=
  match path with
  | [] => ['.']
  | c :: rest =>
    let rooted := IsPathSeparator c
    let out :=
      if rooted then cleanLoop true (c :: rest).length rest ['/'] 1
      else cleanLoop false (c :: rest).length (c :: rest) [] 0
    if out.length = 0 then ['.'] else out

/-- The unexported `join` behind `filepath.Join`: the elements from the first
non-empty one on are joined with `/` and cleaned. -/
def join : List Str → Str
  | [] => []
  | e :: es => if e ≠ [] then Clean (strings.Join (e :: es) ['/']) else join es

/-- Go `filepath.Join(elem...)`. -/
def Join (elem : List Str) : Str := join elem

end filepath

/-! ## Errors, `fmt` and `net/url` -/

/-- Lists of Go strings (`[]string`). -/
abbrev Strs := List Str

/-- An operand of a `fmt` call: the drivers format strings and string slices. -/
inductive Arg where
  | str (s : Str)
  | strs (l : Strs)
  deriving DecidableEq, Repr

/-- How `%v` and `%s` print an operand: a string as it is, a slice as
`[a b c]`. -/
def Arg.print : Arg → Str
  | .str s => s
  | .strs l => '[' :: strings.Join l [' '] ++ [']']

/-- The Go type name of an operand, as `fmt` prints it in `%!(EXTRA ...)`. -/
def Arg.typeName : Arg → Str
  | .str _ => "string".toList
  | .strs _ => "[]string".toList

namespace fmt

/-- The `%!(EXTRA type=value, ...)` text `fmt` appends for unused operands. -/
def extra (args : List Arg) : Str :=
  "%!(EXTRA ".toList ++
    strings.Join (args.map fun a => a.typeName ++ '=' :: a.print) ", ".toList ++ [')']

/-- The fragment of `fmt.Sprintf` the drivers' own format strings stay in: the
verbs `%s` and `%v`, the escape `%%`, a missing operand (`%!s(MISSING)`) and
unused operands.  `none` for every other directive. -/
def SprintfCore : Str → List Arg → Option Str
  | [], [] => some []
  | [], a :: args => some (extra (a :: args))
  | [c], [] => if c = '%' then none else some [c]
  | [c], a :: args => if c = '%' then none else some (c :: extra (a :: args))
  | c :: v :: f, args =>
    if c ≠ '%' then (SprintfCore (v :: f) args).map (c :: ·)
    else if v = '%' then (SprintfCore f args).map ('%' :: ·)
    else if v = 's' ∨ v = 'v' then
      match args with
      | [] => (SprintfCore f []).map (['%', '!', v] ++ "(MISSING)".toList ++ ·)
      | a :: args => (SprintfCore f args).map (a.print ++ ·)
    else none

/-- Go `fmt.Sprintf`.  Outside the fragment of `SprintfCore` the result is
whatever the rest of the `fmt` package (`other`) prints. -/
def Sprintf (other : Str → List Arg → Str) (format : Str) (args : List Arg) : Str :=
  (SprintfCore format args).getD (other format args)

end fmt

/-- Go `error` values of the drivers. -/
inductive Err where
  /-- An error returned by a call that leaves the process. -/
  | external (msg : Str)
  /-- The value of `fmt.Errorf(format, args...)`. -/
  | errorf (format : Str) (args : List Arg)
  /-- The value of `errors.Wrapf(cause, format, args...)`. -/
  | wrapf (cause : Err) (format : Str) (args : List Arg)
  deriving DecidableEq, Repr

/-- Go `err.Error()`. -/
def Err.Error (other : Str → List Arg → Str) : Err → Str
  | .external msg => msg
  | .errorf format args => fmt.Sprintf other format args
  | .wrapf cause format args =>
    fmt.Sprintf other format args ++ ": ".toList ++ cause.Error other

namespace url

/-- Go `url.Userinfo`. -/
structure Userinfo where
  username : Str
  password : Option Str
  deriving DecidableEq, Repr

/-- Go `(*Userinfo).Username`. -/
def Userinfo.Username (u : Userinfo) : Str := u.username

/-- The fields of `url.URL` the drivers read. -/
structure URL where
  Scheme : Str
  User : Option Userinfo
  Host : Str
  Path : Str
  deriving DecidableEq, Repr

end url

/-! ## `time.Time` -/

/-- A `time.Time`: an instant and a location, `none` being UTC. -/
structure Time where
  instant : Int
  loc : Option Str
  deriving DecidableEq, Repr

/-- The zero value `time.Time{}`. -/
def Time.zero : Time := ⟨0, none⟩

/-- Go `t.UTC()`: the same instant with the location set to UTC. -/
def Time.UTC (t : Time) : Time := { t with loc := none }

/-- A Go run-time panic. -/
inductive Panic where
  | nilPointerDereference
  deriving DecidableEq, Repr

/-! ## `azblob/azblob_service.go` -/

namespace azblob

/-- The default domain `azureURL`. -/
def azureURL : Str := "core.windows.net".toList

/-- The format `azureConnNameKey`. -/
def azureConnNameKey : Str := "AccountName=%s;AccountKey=%s;".toList

/-- The format `blobEndpoint`. -/
def blobEndpoint : Str := "BlobEndpoint=%s;".toList

/-- The format `blobEndpointSuffix`. -/
def blobEndpointSuffix : Str := "EndpointSuffix=%s".toList

/-- One page of a hierarchical listing: the blob items and the blob prefixes
of the segment, by name. -/
structure Page where
  BlobItems : Strs
  BlobPrefixes : Strs
  deriving DecidableEq, Repr

/-- A listing pager run to its end: the pages `NextPage` delivered, and the
value of `pager.Err()` afterwards. -/
structure Pager where
  pages : List Page
  err : Option Err
  deriving DecidableEq, Repr

/-- The fields of `azblob.GetBlobPropertiesResponse` the driver reads; both are
pointers in the SDK, `none` is `nil`. -/
structure GetBlobPropertiesResponse where
  ContentLength : Option Int
  LastModified : Option Time
  deriving DecidableEq, Repr

/-- The calls on `azblob.ContainerClient` (and on the block-blob client it
hands out for a blob name) that the claims below are about, over a backend
state `σ`.  `ListBlobsHierarchy` takes the delimiter and the listing prefix. -/
structure ContainerClient (σ : Type) where
  ListBlobsHierarchy : Str → Str → σ → Pager
  GetProperties : Str → σ → Except Err GetBlobPropertiesResponse
  Delete : Str → σ → Option Err × σ

/-- The struct `Service`. -/
structure Service (σ : Type) where
  Container : Str
  ServiceURL : Str
  ContainerClient : ContainerClient σ

/-- The process environment and the libraries `NewService` calls: `os.Getenv`,
the part of `fmt` outside `fmt.SprintfCore`, and
`azblob.NewServiceClientFromConnectionString` followed by
`NewContainerClient` (connection string, then container name). -/
structure Runtime (σ : Type) where
  Getenv : Str → Str
  fmtOther : Str → List Arg → Str
  NewServiceClientFromConnectionString : Str → Except Err (Str → ContainerClient σ)

/-- The value of `s.ServiceURL` after lines 34-51 of `NewService`. -/
def NewService.ServiceURL (u : url.URL) : Str :=
  let ServiceURL := match u.User with
    | some _ => u.Host
    | none => []
  if ServiceURL = [] then azureURL else ServiceURL

/-- The value of `s.Container` after lines 34-39 of `NewService`. -/
def NewService.Container (u : url.URL) : Str :=
  match u.User with
  | some user => user.Username
  | none => u.Host

/-- The connection string `connStr` that `NewService` builds (lines 41-64). -/
def NewService.connStr (rt : Runtime σ) (u : url.URL) : Str :=
  let ServiceURL := NewService.ServiceURL u
  let accountName := rt.Getenv "AZBLOB_ACCOUNT_NAME".toList
  let accountKey := rt.Getenv "AZBLOB_ACCOUNT_KEY".toList
  let azureEndpoint := rt.Getenv "AZURE_ENDPOINT".toList
  let endpointSuffix :=
    if !strings.Contains ServiceURL azureURL then
      fmt.Sprintf rt.fmtOther blobEndpointSuffix [.str ServiceURL]
    else []
  let connStr := fmt.Sprintf rt.fmtOther azureConnNameKey [.str accountName, .str accountKey]
  if azureEndpoint ≠ [] then
    let blobEndpointURL := strings.TrimRight azureEndpoint ['/'] ++ ['/'] ++ accountName
    fmt.Sprintf rt.fmtOther (connStr ++ blobEndpoint) [.str blobEndpointURL]
  else if endpointSuffix ≠ [] then
    fmt.Sprintf rt.fmtOther (connStr ++ blobEndpoint) [.str endpointSuffix]
  else connStr

/-- The function `NewService`. -/
def NewService (rt : Runtime σ) (u : url.URL) : Except Err (Service σ) :=
  match rt.NewServiceClientFromConnectionString (NewService.connStr rt u) with
  | .error err => .error err
  | .ok serviceClient =>
    .ok { Container := NewService.Container u
          ServiceURL := NewService.ServiceURL u
          ContainerClient := serviceClient (NewService.Container u) }

/-- The method `Service.ListBlobs`: the names of the blob items and, after
them, of the blob prefixes of every page, in page order. -/
def Service.ListBlobs (s : Service σ) (pfx delimiter : Str) (st : σ) : Except Err Strs :=
  let pager := s.ContainerClient.ListBlobsHierarchy delimiter pfx st
  let blobs := pager.pages.foldl
    (fun blobs resp => (blobs ++ resp.BlobItems) ++ resp.BlobPrefixes) []
  match pager.err with
  | some err => .error err
  | none => .ok blobs

/-- The method `Service.GetBlobProperties`. -/
def Service.GetBlobProperties (s : Service σ) (blob : Str) (st : σ) :
    Except Err GetBlobPropertiesResponse :=
  s.ContainerClient.GetProperties blob st

/-- One iteration of the loop of `DeleteBlobs`: delete `blob`, and on an error
append it to `deletionFailures`. -/
def Service.DeleteBlobs.step (s : Service σ) (acc : σ × Strs) (blob : Str) : σ × Strs :=
  match s.ContainerClient.Delete blob acc.1 with
  | (some _, st) => (st, acc.2 ++ [blob])
  | (none, st) => (st, acc.2)

/-- The method `Service.DeleteBlobs`: the returned error and the backend state
afterwards. -/
def Service.DeleteBlobs (s : Service σ) (blob : Str) (st : σ) : Option Err × σ :=
  match s.ListBlobs blob [] st with
  | .error err =>
    (some (.wrapf err "failed to list blobs with prefix %v before removing them".toList
      [.str blob]), st)
  | .ok blobs =>
    let r := blobs.foldl (Service.DeleteBlobs.step s) (st, [])
    if 0 < r.2.length then
      (some (.errorf "failed to delete blobs %v".toList [.strs r.2]), r.1)
    else (none, r.1)

end azblob

/-! ## `azblob/azblob.go` -/

namespace azblob

/-- The constant `KIND`. -/
def KIND : Str := "azblob".toList

/-- The struct `BackupStoreDriver`. -/
structure BackupStoreDriver (σ : Type) where
  destURL : Str
  path : Str
  service : Service σ

/-- The method `updatePath`. -/
def BackupStoreDriver.updatePath (s : BackupStoreDriver σ) (path : Str) : Str :=
  filepath.Join [s.path, path]

/-- The method `List`. -/
def BackupStoreDriver.List (s : BackupStoreDriver σ) (listPath : Str) (st : σ) :
    Except Err Strs :=
  let path := s.updatePath listPath ++ ['/']
  match s.service.ListBlobs path ['/'] st with
  | .error err => .error err
  | .ok contents =>
    if contents.length = 0 then .ok []
    else
      .ok (contents.foldl (fun result blob =>
        let r := strings.TrimPrefix blob path
        let r := strings.TrimSuffix r ['/']
        if r ≠ [] then result ++ [r] else result) [])

/-- The method `FileSize`. -/
def BackupStoreDriver.FileSize (s : BackupStoreDriver σ) (filePath : Str) (st : σ) : Int :=
  let path := s.updatePath filePath
  match s.service.GetBlobProperties path st with
  | .error _ => -1
  | .ok head =>
    match head.ContentLength with
    | none => -1
    | some n => n

/-- The method `FileExists`. -/
def BackupStoreDriver.FileExists (s : BackupStoreDriver σ) (filePath : Str) (st : σ) : Bool :=
  decide (s.FileSize filePath st ≥ 0)

/-- The method `FileTime`.  `blobProp.LastModified` is a `*time.Time`; calling
`UTC()` through a nil pointer panics. -/
def BackupStoreDriver.FileTime (s : BackupStoreDriver σ) (filePath : Str) (st : σ) :
    Except Panic Time :=
  let path := s.updatePath filePath
  match s.service.GetBlobProperties path st with
  | .error _ => .ok Time.zero
  | .ok blobProp =>
    match blobProp.ContentLength with
    | none => .ok Time.zero
    | some _ =>
      match blobProp.LastModified with
      | none => .error Panic.nilPointerDereference
      | some t => .ok t.UTC

/-- The method `Remove`. -/
def BackupStoreDriver.Remove (s : BackupStoreDriver σ) (path : Str) (st : σ) :
    Option Err × σ :=
  s.service.DeleteBlobs (s.updatePath path) st

/-- The error `initFunc` returns for a URL without container or path. -/
def invalidURL : Err :=
  .errorf ("Invalid URL. Must be either azblob://container@serviceurl/path/, " ++
    "or azblob://container/path").toList []

/-- The function `initFunc`.  `Parse` is `url.Parse`, `st` the backend state at
the time of the call. -/
def initFunc (Parse : Str → Except Err url.URL) (rt : Runtime σ) (destURL : Str) (st : σ) :
    Except Err (BackupStoreDriver σ) :=
  match Parse destURL with
  | .error err => .error err
  | .ok u =>
    if u.Scheme ≠ KIND then
      .error (.errorf "BUG: Why dispatch %v to %v?".toList [.str u.Scheme, .str KIND])
    else
      match NewService rt u with
      | .error err => .error err
      | .ok service =>
        if service.Container = [] ∨ u.Path = [] then .error invalidURL
        else
          let b : BackupStoreDriver σ :=
            { destURL := [], path := strings.TrimLeft u.Path ['/'], service := service }
          match b.List [] st with
          | .error err => .error err
          | .ok _ =>
            let destURL := KIND ++ "://".toList ++ b.service.Container
            let destURL :=
              if b.service.Container ≠ [] then destURL ++ ['@'] ++ b.service.ServiceURL
              else destURL
            .ok { b with destURL := destURL ++ ['/'] ++ b.path }

end azblob

/-! ## `s3/s3.go` -/

namespace s3

/-- The constant `KIND`. -/
def KIND : Str := "s3".toList

/-- The fields of `s3.HeadObjectOutput` the driver reads; both are pointers in
the SDK, `none` is `nil`. -/
structure HeadObjectOutput where
  ContentLength : Option Int
  LastModified : Option Time
  deriving DecidableEq, Repr

/-- The struct `service` of `s3_service.go`, as far as `s3.go` uses it: the
fields `Bucket` and `Region`, and the methods `ListObjects` (key, delimiter;
the keys of the objects and the common prefixes), `HeadObject` and
`DeleteObjects`, over a backend state `σ`. -/
structure service (σ : Type) where
  Bucket : Str
  Region : Str
  ListObjects : Str → Str → σ → Except Err (Strs × Strs)
  HeadObject : Str → σ → Except Err HeadObjectOutput
  DeleteObjects : Str → σ → Option Err × σ

/-- The struct `BackupStoreDriver`. -/
structure BackupStoreDriver (σ : Type) where
  destURL : Str
  path : Str
  service : service σ

/-- The method `updatePath`. -/
def BackupStoreDriver.updatePath (s : BackupStoreDriver σ) (path : Str) : Str :=
  let joinedPath := filepath.Join [s.path, path]
  if !strings.HasSuffix path ['/'] then joinedPath
  else joinedPath ++ ['/']

/-- The method `List`. -/
def BackupStoreDriver.List (s : BackupStoreDriver σ) (listPath : Str) (st : σ) :
    Except Err Strs :=
  let path := s.updatePath listPath
  let path := if !strings.HasSuffix path ['/'] then path ++ ['/'] else path
  match s.service.ListObjects path ['/'] st with
  | .error err => .error err
  | .ok (contents, pfxs) =>
    if contents.length = 0 ∧ pfxs.length = 0 then .ok []
    else
      let result := contents.foldl (fun result Key =>
        let r := strings.TrimPrefix Key path
        if r ≠ [] then result ++ [r] else result) []
      .ok (pfxs.foldl (fun result p =>
        let r := strings.TrimPrefix p path
        let r := strings.TrimSuffix r ['/']
        if r ≠ [] then result ++ [r] else result) result)

/-- The method `FileSize`. -/
def BackupStoreDriver.FileSize (s : BackupStoreDriver σ) (filePath : Str) (st : σ) : Int :=
  let path := s.updatePath filePath
  match s.service.HeadObject path st with
  | .error _ => -1
  | .ok head =>
    match head.ContentLength with
    | none => -1
    | some n => n

/-- The method `FileExists`. -/
def BackupStoreDriver.FileExists (s : BackupStoreDriver σ) (filePath : Str) (st : σ) : Bool :=
  decide (s.FileSize filePath st ≥ 0)

/-- Go `aws.TimeValue`: the time behind the pointer, the zero time for `nil`. -/
def TimeValue (v : Option Time) : Time := v.getD Time.zero

/-- The method `FileTime`. -/
def BackupStoreDriver.FileTime (s : BackupStoreDriver σ) (filePath : Str) (st : σ) : Time :=
  let path := s.updatePath filePath
  match s.service.HeadObject path st with
  | .error _ => Time.zero
  | .ok head =>
    match head.ContentLength with
    | none => Time.zero
    | some _ => (TimeValue head.LastModified).UTC

/-- The method `Remove`. -/
def BackupStoreDriver.Remove (s : BackupStoreDriver σ) (path : Str) (st : σ) :
    Option Err × σ :=
  s.service.DeleteObjects (s.updatePath path) st

/-- The error `initFunc` returns for a URL without bucket or path. -/
def invalidURL : Err :=
  .errorf "invalid URL. Must be either s3://bucket@region/path/, or s3://bucket/path".toList []

/-- The function `initFunc`.  `Parse` is `url.Parse`, `newService` the
constructor of `s3_service.go`, `st` the backend state at the time of the
call. -/
def initFunc (Parse : Str → Except Err url.URL) (newService : url.URL → Except Err (service σ))
    (destURL : Str) (st : σ) : Except Err (BackupStoreDriver σ) :=
  match Parse destURL with
  | .error err => .error err
  | .ok u =>
    if u.Scheme ≠ KIND then
      .error (.errorf "BUG: Why dispatch %v to %v?".toList [.str u.Scheme, .str KIND])
    else
      match newService u with
      | .error err => .error err
      | .ok service =>
        if service.Bucket = [] ∨ u.Path = [] then .error invalidURL
        else
          let b : BackupStoreDriver σ :=
            { destURL := [], path := strings.TrimLeft u.Path ['/'], service := service }
          match b.List [] st with
          | .error err => .error err
          | .ok _ =>
            let destURL := KIND ++ "://".toList ++ b.service.Bucket
            let destURL :=
              if b.service.Region ≠ [] then destURL ++ ['@'] ++ b.service.Region
              else destURL
            .ok { b with destURL := destURL ++ ['/'] ++ b.path }

end s3

/-! ## The backend: a flat key space with delimiter listing -/

namespace Backend

/-- Cuts `s` at the first occurrence of the non-empty delimiter: the text
before it and the text after it. -/
def cut (delim : Str) : Str → Option (Str × Str)
  | [] => none
  | c :: s =>
    if delim.isPrefixOf (c :: s) then some ([], (c :: s).drop delim.length)
    else (cut delim s).map fun r => (c :: r.1, r.2)

/-- The common prefix a key under `pfx` is rolled up into by a delimiter
listing: `pfx`, the text up to the first delimiter after it, and the
delimiter.  None when the delimiter is empty or does not occur after `pfx`. -/
def rollup (pfx delim key : Str) : Option Str :=
  if delim = [] then none
  else (cut delim (key.drop pfx.length)).map fun r => pfx ++ r.1 ++ delim

/-- The direct entries of a delimiter listing of the stored `keys`: the keys
that begin with `pfx` and are not rolled up. -/
def directEntries (keys : Strs) (pfx delim : Str) : Strs :=
  keys.filter fun k => strings.HasPrefix k pfx && (rollup pfx delim k).isNone

/-- The common prefixes of a delimiter listing of the stored `keys`, each
once. -/
def commonPrefixes (keys : Strs) (pfx delim : Str) : Strs :=
  ((keys.filter fun k => strings.HasPrefix k pfx).filterMap (rollup pfx delim)).dedup

/-- The first path segment of the text after the listing prefix. -/
def firstSegment (rest : Str) : Str := rest.takeWhile fun c => !filepath.IsPathSeparator c

/-- An object directly under `pfx` and a deeper key under `pfx` reduce to the
same child name: some stored key is `pfx` followed by a non-empty name without
`/`, and the text after `pfx` of another stored key has that name as its first
segment, followed by `/`. -/
def clash (keys : Strs) (pfx : Str) : Prop :=
  ∃ k1, k1 ∈ keys ∧ ∃ k2, k2 ∈ keys ∧
    strings.HasPrefix k1 pfx = true ∧ strings.HasPrefix k2 pfx = true ∧
    k1.drop pfx.length ≠ [] ∧ '/' ∉ k1.drop pfx.length ∧ '/' ∈ k2.drop pfx.length ∧
    firstSegment (k2.drop pfx.length) = k1.drop pfx.length

instance (keys : Strs) (pfx : Str) : Decidable (clash keys pfx) := by
  unfold clash
  infer_instance

/-- An Azure container holding the blobs `keys` (the state): a listing returns
one page with the direct entries and the common prefixes, a delete removes a
stored blob and fails for a blob that is not stored. -/
def container : azblob.ContainerClient Strs where
  ListBlobsHierarchy := fun delim pfx keys =>
    ⟨[⟨directEntries keys pfx delim, commonPrefixes keys pfx delim⟩], none⟩
  GetProperties := fun blob keys =>
    if blob ∈ keys then .ok ⟨some 0, some Time.zero⟩
    else .error (.external "BlobNotFound".toList)
  Delete := fun blob keys =>
    if blob ∈ keys then (none, keys.filter fun k => k ≠ blob)
    else (some (.external "BlobNotFound".toList), keys)

/-- Modelled from the spec: the methods of `s3_service.go`, which is not among
the sources, over an S3 bucket holding the objects `keys` (the state).
`ListObjects` is the delimiter listing (direct entries and common prefixes),
`DeleteObjects` the prefix delete. -/
def bucket (Bucket Region : Str) : s3.service Strs where
  Bucket := Bucket
  Region := Region
  ListObjects := fun key delim keys =>
    .ok (directEntries keys key delim, commonPrefixes keys key delim)
  HeadObject := fun key keys =>
    if key ∈ keys then .ok ⟨some 0, some Time.zero⟩
    else .error (.external "NotFound".toList)
  DeleteObjects := fun key keys =>
    (none, keys.filter fun k => !strings.HasPrefix k key)

/-- A container client that records its `Delete` calls (the state is the list
of blob names deleted so far, oldest first): every listing returns `pager`,
and the `i`-th delete call fails when `fails i`. -/
def recorder (pager : azblob.Pager) (fails : Nat → Bool) : azblob.ContainerClient Strs where
  ListBlobsHierarchy := fun _ _ _ => pager
  GetProperties := fun _ _ => .error (.external "BlobNotFound".toList)
  Delete := fun blob calls =>
    (if fails calls.length then some (.external "delete failed".toList) else none,
      calls ++ [blob])

/-- A container client whose metadata probe has the outcome `r` for every
blob. -/
def probe (r : Except Err azblob.GetBlobPropertiesResponse) : azblob.ContainerClient Unit where
  ListBlobsHierarchy := fun _ _ _ => ⟨[], none⟩
  GetProperties := fun _ _ => r
  Delete := fun _ st => (none, st)

/-- An S3 service whose metadata probe has the outcome `r` for every key. -/
def probeS3 (r : Except Err s3.HeadObjectOutput) : s3.service Unit where
  Bucket := []
  Region := []
  ListObjects := fun _ _ _ => .ok ([], [])
  HeadObject := fun _ _ => r
  DeleteObjects := fun _ st => (none, st)

/-- A process environment `env` in which every connection string yields a
client of the container holding the state's blobs. -/
def runtime (env : Str → Str) : azblob.Runtime Strs where
  Getenv := env
  fmtOther := fun _ _ => []
  NewServiceClientFromConnectionString := fun _ => .ok fun _ => container

/-- An environment with the account name `acct` and the account key `key`,
and nothing else set. -/
def account (name : Str) : Str :=
  if name = "AZBLOB_ACCOUNT_NAME".toList then "acct".toList
  else if name = "AZBLOB_ACCOUNT_KEY".toList then "key".toList
  else []

/-- The results of `url.Parse` on the destination URLs used below. -/
def Parse (destURL : Str) : Except Err url.URL :=
  if destURL = "azblob://B/".toList then .ok ⟨"azblob".toList, none, "B".toList, "/".toList⟩
  else if destURL = "azblob://B/p".toList then
    .ok ⟨"azblob".toList, none, "B".toList, "/p".toList⟩
  else if destURL = "azblob://B".toList then .ok ⟨"azblob".toList, none, "B".toList, []⟩
  else if destURL = "s3://B/".toList then .ok ⟨"s3".toList, none, "B".toList, "/".toList⟩
  else if destURL = "s3://B/p".toList then .ok ⟨"s3".toList, none, "B".toList, "/p".toList⟩
  else if destURL = "s3://B".toList then .ok ⟨"s3".toList, none, "B".toList, []⟩
  else .error (.external "parse error".toList)

/-- Modelled from the spec: `newService` of `s3_service.go`, which is not among
the sources.  The bucket comes from the user-info component when present, else
from the host component; the region comes from the host component only when
user-info was present. -/
def newService (u : url.URL) : Except Err (s3.service Strs) :=
  match u.User with
  | some user => .ok (bucket user.Username u.Host)
  | none => .ok (bucket u.Host [])

end Backend

/-! ## Theorems -/

section Probe

/-- C4 (azblob breaks it): when the metadata probe succeeds with a size and without
a last-modified time, the azblob `FileTime` does not return the zero time, it
panics on the nil `LastModified`; the S3 `FileTime` returns the zero time for
the same probe outcome, and the azblob `FileSize` returns the size. -/
theorem azblob_FileTime_panics_without_LastModified (root p : Str) (n : Int) :
    (azblob.BackupStoreDriver.FileTime
        ⟨[], root, ⟨[], [], Backend.probe (.ok ⟨some n, none⟩)⟩⟩ p ()
      = .error Panic.nilPointerDereference) ∧
    (s3.BackupStoreDriver.FileTime ⟨[], root, Backend.probeS3 (.ok ⟨some n, none⟩)⟩ p ()
      = Time.zero) ∧
    (azblob.BackupStoreDriver.FileSize
        ⟨[], root, ⟨[], [], Backend.probe (.ok ⟨some n, none⟩)⟩⟩ p () = n) :=
  ⟨rfl, rfl, rfl⟩

/-- C5: for both drivers, every path and every outcome of the metadata probe,
`FileExists(p) = (FileSize(p) >= 0)`; it is true exactly when the probe
succeeds and reports a size that is not negative. -/
theorem FileExists_eq_FileSize_nonneg :
    (∀ (σ : Type) (b : azblob.BackupStoreDriver σ) (p : Str) (st : σ),
      b.FileExists p st = decide (b.FileSize p st ≥ 0) ∧
      (b.FileExists p st = true ↔
        ∃ head n, b.service.GetBlobProperties (b.updatePath p) st = .ok head ∧
          head.ContentLength = some n ∧ 0 ≤ n)) ∧
    (∀ (σ : Type) (b : s3.BackupStoreDriver σ) (p : Str) (st : σ),
      b.FileExists p st = decide (b.FileSize p st ≥ 0) ∧
      (b.FileExists p st = true ↔
        ∃ head n, b.service.HeadObject (b.updatePath p) st = .ok head ∧
          head.ContentLength = some n ∧ 0 ≤ n)) := by
  constructor
  · intro σ b p st
    refine ⟨rfl, ?_⟩
    simp only [azblob.BackupStoreDriver.FileExists, azblob.BackupStoreDriver.FileSize,
      decide_eq_true_eq]
    cases h : b.service.GetBlobProperties (b.updatePath p) st with
    | error e => simp
    | ok head =>
      cases hc : head.ContentLength with
      | none => simp [hc]
      | some n => simp [hc]
  · intro σ b p st
    refine ⟨rfl, ?_⟩
    simp only [s3.BackupStoreDriver.FileExists, s3.BackupStoreDriver.FileSize,
      decide_eq_true_eq]
    cases h : b.service.HeadObject (b.updatePath p) st with
    | error e => simp
    | ok head =>
      cases hc : head.ContentLength with
      | none => simp [hc]
      | some n => simp [hc]

end Probe

section Resolver

/-- C6 as stated fails: for `azblob://B@/p` (user-info `B`, empty host) the
service is built with container `B`, and the endpoint is the default
`core.windows.net`, not the (empty) host component. -/
theorem NewService_empty_host_endpoint :
    ∃ s : azblob.Service Strs,
      azblob.NewService (Backend.runtime Backend.account)
        ⟨azblob.KIND, some ⟨"B".toList, none⟩, [], "/p".toList⟩ = .ok s ∧
      s.Container = "B".toList ∧ s.ServiceURL = "core.windows.net".toList ∧
      s.ServiceURL ≠ (⟨azblob.KIND, some ⟨"B".toList, none⟩, [], "/p".toList⟩ : url.URL).Host :=
  ⟨_, rfl, rfl, by decide, by decide⟩

/-- C6, amended: whenever `NewService` returns a service for a parsed URL: with
a user-info component the container is the user name and the endpoint is the
host component, or the default `core.windows.net` when the host is empty;
without one the container is the host component and the endpoint is the
default. -/
theorem NewService_resolution {σ : Type} (rt : azblob.Runtime σ) (u : url.URL)
    (s : azblob.Service σ) (h : azblob.NewService rt u = .ok s) :
    (∀ user, u.User = some user →
      s.Container = user.Username ∧
      s.ServiceURL = if u.Host = [] then azblob.azureURL else u.Host) ∧
    (u.User = none → s.Container = u.Host ∧ s.ServiceURL = azblob.azureURL) := by
  unfold azblob.NewService at h
  cases hc : rt.NewServiceClientFromConnectionString (azblob.NewService.connStr rt u) with
  | error e => rw [hc] at h; cases h
  | ok c =>
    rw [hc] at h
    cases h
    constructor
    · intro user hu
      simp [azblob.NewService.Container, azblob.NewService.ServiceURL, hu]
    · intro hu
      simp [azblob.NewService.Container, azblob.NewService.ServiceURL, hu]

/-- The URLs `azblob://B@E/p` and `azblob://B/p/` resolve to container `B` with
endpoint `E`, and to container `B` with the default endpoint. -/
theorem NewService_resolution_witness :
    (∃ s : azblob.Service Strs,
      azblob.NewService (Backend.runtime Backend.account)
        ⟨azblob.KIND, some ⟨"B".toList, none⟩, "E".toList, "/p".toList⟩ = .ok s ∧
      s.Container = "B".toList ∧ s.ServiceURL = "E".toList) ∧
    (∃ s : azblob.Service Strs,
      azblob.NewService (Backend.runtime Backend.account)
        ⟨azblob.KIND, none, "B".toList, "/p/".toList⟩ = .ok s ∧
      s.Container = "B".toList ∧ s.ServiceURL = "core.windows.net".toList) := by
  refine ⟨⟨_, rfl, ?_⟩, ⟨_, rfl, ?_⟩⟩
  · have h := (NewService_resolution (Backend.runtime Backend.account)
      ⟨azblob.KIND, some ⟨"B".toList, none⟩, "E".toList, "/p".toList⟩ _ rfl).1 _ rfl
    exact ⟨h.1, h.2.trans (by decide)⟩
  · have h := (NewService_resolution (Backend.runtime Backend.account)
      ⟨azblob.KIND, none, "B".toList, "/p/".toList⟩ _ rfl).2 rfl
    exact ⟨h.1, h.2.trans (by decide)⟩

/-- C10 (the code breaks it): with account name `acct`, account key `key`, no
`AZURE_ENDPOINT` and the endpoint `example.com` from the URL, the connection
string handed to the SDK is
`AccountName=acct;AccountKey=key;BlobEndpoint=EndpointSuffix=example.com;`:
the endpoint-suffix setting is wrapped in a `BlobEndpoint` field instead of
being a field of its own. -/
theorem NewService_connStr_suffix_in_BlobEndpoint {σ : Type}
    (other : Str → List Arg → Str)
    (newClient : Str → Except Err (Str → azblob.ContainerClient σ)) :
    azblob.NewService.connStr ⟨Backend.account, other, newClient⟩
        ⟨azblob.KIND, some ⟨"B".toList, none⟩, "example.com".toList, "/p".toList⟩
      = "AccountName=acct;AccountKey=key;BlobEndpoint=EndpointSuffix=example.com;".toList ∧
    azblob.NewService ⟨Backend.account, other, newClient⟩
        ⟨azblob.KIND, some ⟨"B".toList, none⟩, "example.com".toList, "/p".toList⟩
      = (match newClient
          "AccountName=acct;AccountKey=key;BlobEndpoint=EndpointSuffix=example.com;".toList with
        | .error err => .error err
        | .ok c => .ok ⟨"B".toList, "example.com".toList, c "B".toList⟩) := by
  have h : azblob.NewService.connStr ⟨Backend.account, other, newClient⟩
        ⟨azblob.KIND, some ⟨"B".toList, none⟩, "example.com".toList, "/p".toList⟩
      = "AccountName=acct;AccountKey=key;BlobEndpoint=EndpointSuffix=example.com;".toList := by
    rfl
  refine ⟨h, ?_⟩
  unfold azblob.NewService
  rw [h]
  rfl

end Resolver

section Paths

/-- The bound on the iterations of `Clean`'s loop is never reached before the
input is consumed: any two bounds of at least the length of the remaining
input give the same result. -/
theorem filepath.cleanLoop_fuel (rooted : Bool) (fuel1 fuel2 : Nat) (rest out : Str)
    (dotdot : Nat) (h1 : rest.length ≤ fuel1) (h2 : rest.length ≤ fuel2) :
    filepath.cleanLoop rooted fuel1 rest out dotdot
      = filepath.cleanLoop rooted fuel2 rest out dotdot := by
  induction fuel1 generalizing fuel2 rest out dotdot with
  | zero =>
    have hr : rest = [] := List.length_eq_zero.mp (Nat.le_zero.mp h1)
    subst hr
    cases fuel2 <;> rfl
  | succ n ih =>
    cases rest with
    | nil => cases fuel2 <;> rfl
    | cons c r =>
      cases fuel2 with
      | zero => simp at h2
      | succ m =>
        have hr1 : r.length ≤ n := Nat.le_of_succ_le_succ h1
        have hr2 : r.length ≤ m := Nat.le_of_succ_le_succ h2
        have ht : r.tail.length ≤ r.length := by simp
        have hd : (r.dropWhile fun x => !filepath.IsPathSeparator x).length ≤ r.length :=
          (List.dropWhile_sublist _).length_le
        simp only [filepath.cleanLoop]
        rw [ih m r out dotdot hr1 hr2,
          ih m r.tail _ dotdot (ht.trans hr1) (ht.trans hr2),
          ih m r.tail _ _ (ht.trans hr1) (ht.trans hr2),
          ih m r.tail out dotdot (ht.trans hr1) (ht.trans hr2),
          ih m _ _ dotdot (hd.trans hr1) (hd.trans hr2)]

theorem strings.HasSuffix_append (x s : Str) : strings.HasSuffix (x ++ s) s = true := by
  simp [strings.HasSuffix]

theorem strings.TrimLeft_slash_no_leading (s : Str) :
    strings.HasPrefix (strings.TrimLeft s ['/']) ['/'] = false := by
  induction s with
  | nil => rfl
  | cons c s ih =>
    by_cases hc : c = '/'
    · simpa [strings.TrimLeft, List.dropWhile_cons, hc] using ih
    · have hc2 : ¬ ('/' = c) := fun h => hc h.symm
      simp [strings.TrimLeft, strings.HasPrefix, List.dropWhile_cons, hc, hc2, List.isPrefixOf]

/-- The S3 `updatePath` preserves a trailing separator: for a caller path
ending with `/` it is the join of root and path followed by `/` (and so ends
with `/`), otherwise it is the join of root and path. -/
theorem s3_updatePath_preserves_trailing_separator {σ : Type} (b : s3.BackupStoreDriver σ)
    (path : Str) :
    (strings.HasSuffix path ['/'] = true →
      b.updatePath path = filepath.Join [b.path, path] ++ ['/'] ∧
      strings.HasSuffix (b.updatePath path) ['/'] = true) ∧
    (strings.HasSuffix path ['/'] = false →
      b.updatePath path = filepath.Join [b.path, path]) := by
  refine ⟨fun h => ?_, fun h => ?_⟩
  · have e : b.updatePath path = filepath.Join [b.path, path] ++ ['/'] := by
      simp [s3.BackupStoreDriver.updatePath, h]
    exact ⟨e, by rw [e]; exact strings.HasSuffix_append _ _⟩
  · simp [s3.BackupStoreDriver.updatePath, h]

/-- C8 (azblob breaks it): with root `root` the caller path `dir/` ends with
`/`; the S3 `updatePath` yields `root/dir/`, which keeps the separator, and
the azblob `updatePath` yields `root/dir`, which does not end with `/`.  As a
consequence the azblob `Remove("a/")` with root `r` lists the prefix `r/a` and
also deletes the sibling blob `r/ab`. -/
theorem azblob_updatePath_drops_trailing_separator :
    strings.HasSuffix "dir/".toList ['/'] = true ∧
    s3.BackupStoreDriver.updatePath ⟨[], "root".toList, Backend.bucket [] []⟩ "dir/".toList
      = "root/dir/".toList ∧
    azblob.BackupStoreDriver.updatePath
        ⟨[], "root".toList, ⟨[], [], Backend.container⟩⟩ "dir/".toList = "root/dir".toList ∧
    strings.HasSuffix
      (azblob.BackupStoreDriver.updatePath
        ⟨[], "root".toList, ⟨[], [], Backend.container⟩⟩ "dir/".toList) ['/'] = false ∧
    azblob.BackupStoreDriver.Remove ⟨[], "r".toList, ⟨[], [], Backend.container⟩⟩ "a/".toList
        ["r/a/1".toList, "r/ab".toList, "r/b".toList] = (none, ["r/b".toList]) := by
  decide

end Paths

section Construction

/-- C7 as stated fails: for `azblob://B/` and `s3://B/` (URL path `/`), with an
empty backend, `initFunc` returns a driver, and its root path is empty. -/
theorem initFunc_accepts_slash_only_path :
    (∃ b, azblob.initFunc Backend.Parse (Backend.runtime Backend.account)
        "azblob://B/".toList [] = .ok b ∧ b.path = [] ∧ b.service.Container = "B".toList) ∧
    (∃ b, s3.initFunc Backend.Parse Backend.newService "s3://B/".toList [] = .ok b ∧
        b.path = [] ∧ b.service.Bucket = "B".toList) :=
  ⟨⟨_, rfl, rfl, rfl⟩, ⟨_, rfl, rfl, rfl⟩⟩

/-- C7, amended: for both drivers, a driver that `initFunc` returns has a
non-empty bucket/container, and its root path is the non-empty path of the
parsed URL without its leading slashes, so it has no leading slash (it is
empty when the URL path consists of slashes only); a URL whose path is empty
is rejected, with the invalid-URL error once the scheme matches and the
service is set up. -/
theorem initFunc_valid :
    (∀ (σ : Type) (Parse : Str → Except Err url.URL) (rt : azblob.Runtime σ)
        (destURL : Str) (st : σ),
      (∀ b, azblob.initFunc Parse rt destURL st = .ok b →
        b.service.Container ≠ [] ∧ strings.HasPrefix b.path ['/'] = false ∧
        ∃ u, Parse destURL = .ok u ∧ u.Scheme = azblob.KIND ∧ u.Path ≠ [] ∧
          b.path = strings.TrimLeft u.Path ['/']) ∧
      (∀ u, Parse destURL = .ok u → u.Path = [] →
        (∃ err, azblob.initFunc Parse rt destURL st = .error err) ∧
        (∀ s, u.Scheme = azblob.KIND → azblob.NewService rt u = .ok s →
          azblob.initFunc Parse rt destURL st = .error azblob.invalidURL))) ∧
    (∀ (σ : Type) (Parse : Str → Except Err url.URL)
        (newService : url.URL → Except Err (s3.service σ)) (destURL : Str) (st : σ),
      (∀ b, s3.initFunc Parse newService destURL st = .ok b →
        b.service.Bucket ≠ [] ∧ strings.HasPrefix b.path ['/'] = false ∧
        ∃ u, Parse destURL = .ok u ∧ u.Scheme = s3.KIND ∧ u.Path ≠ [] ∧
          b.path = strings.TrimLeft u.Path ['/']) ∧
      (∀ u, Parse destURL = .ok u → u.Path = [] →
        (∃ err, s3.initFunc Parse newService destURL st = .error err) ∧
        (∀ s, u.Scheme = s3.KIND → newService u = .ok s →
          s3.initFunc Parse newService destURL st = .error s3.invalidURL))) := by
  constructor
  · intro σ Parse rt destURL st
    constructor
    · intro b hb
      unfold azblob.initFunc at hb
      cases hp : Parse destURL with
      | error e => rw [hp] at hb; cases hb
      | ok u =>
        rw [hp] at hb
        by_cases hk : u.Scheme = azblob.KIND
        · cases hs : azblob.NewService rt u with
          | error e => simp [hk, hs] at hb
          | ok service =>
            by_cases hv : service.Container = [] ∨ u.Path = []
            · simp [hk, hs, hv] at hb
            · simp only [hk, hs, hv, ne_eq, not_true_eq_false, if_false] at hb
              split at hb
              · cases hb
              · cases hb
                push_neg at hv
                exact ⟨hv.1, strings.TrimLeft_slash_no_leading _, u, rfl, hk, hv.2, rfl⟩
        · simp [hk] at hb
    · intro u hp hpath
      constructor
      · unfold azblob.initFunc
        rw [hp]
        by_cases hk : u.Scheme = azblob.KIND
        · cases hs : azblob.NewService rt u with
          | error e => exact ⟨e, by simp [hk, hs]⟩
          | ok service => exact ⟨_, by simp [hk, hs, hpath]; rfl⟩
        · exact ⟨_, by simp [hk]; rfl⟩
      · intro s hk hs
        unfold azblob.initFunc
        simp [hp, hk, hs, hpath]
  · intro σ Parse newService destURL st
    constructor
    · intro b hb
      unfold s3.initFunc at hb
      cases hp : Parse destURL with
      | error e => rw [hp] at hb; cases hb
      | ok u =>
        rw [hp] at hb
        by_cases hk : u.Scheme = s3.KIND
        · cases hs : newService u with
          | error e => simp [hk, hs] at hb
          | ok service =>
            by_cases hv : service.Bucket = [] ∨ u.Path = []
            · simp [hk, hs, hv] at hb
            · simp only [hk, hs, hv, ne_eq, not_true_eq_false, if_false] at hb
              split at hb
              · cases hb
              · cases hb
                push_neg at hv
                exact ⟨hv.1, strings.TrimLeft_slash_no_leading _, u, rfl, hk, hv.2, rfl⟩
        · simp [hk] at hb
    · intro u hp hpath
      constructor
      · unfold s3.initFunc
        rw [hp]
        by_cases hk : u.Scheme = s3.KIND
        · cases hs : newService u with
          | error e => exact ⟨e, by simp [hk, hs]⟩
          | ok service => exact ⟨_, by simp [hk, hs, hpath]; rfl⟩
        · exact ⟨_, by simp [hk]; rfl⟩
      · intro s hk hs
        unfold s3.initFunc
        simp [hp, hk, hs, hpath]

/-- The drivers built for `azblob://B/p` and `s3://B/p` on an empty backend have
container or bucket `B` and root path `p`; `azblob://B` and `s3://B` are
rejected with the invalid-URL error. -/
theorem initFunc_valid_witness :
    (∃ b, azblob.initFunc Backend.Parse (Backend.runtime Backend.account)
        "azblob://B/p".toList [] = .ok b ∧ b.service.Container ≠ [] ∧
        strings.HasPrefix b.path ['/'] = false ∧ b.path = "p".toList) ∧
    azblob.initFunc Backend.Parse (Backend.runtime Backend.account) "azblob://B".toList []
      = .error azblob.invalidURL ∧
    (∃ b, s3.initFunc Backend.Parse Backend.newService "s3://B/p".toList [] = .ok b ∧
        b.service.Bucket ≠ [] ∧ strings.HasPrefix b.path ['/'] = false ∧
        b.path = "p".toList) ∧
    s3.initFunc Backend.Parse Backend.newService "s3://B".toList [] = .error s3.invalidURL := by
  have h := initFunc_valid
  refine ⟨⟨_, rfl, ?_, ?_, rfl⟩, ?_, ⟨_, rfl, ?_, ?_, rfl⟩, ?_⟩
  · exact ((h.1 Strs Backend.Parse (Backend.runtime Backend.account)
      "azblob://B/p".toList []).1 _ rfl).1
  · exact ((h.1 Strs Backend.Parse (Backend.runtime Backend.account)
      "azblob://B/p".toList []).1 _ rfl).2.1
  · exact ((h.1 Strs Backend.Parse (Backend.runtime Backend.account)
      "azblob://B".toList []).2 _ rfl rfl).2 _ rfl rfl
  · exact ((h.2 Strs Backend.Parse Backend.newService "s3://B/p".toList []).1 _ rfl).1
  · exact ((h.2 Strs Backend.Parse Backend.newService "s3://B/p".toList []).1 _ rfl).2.1
  · exact ((h.2 Strs Backend.Parse Backend.newService "s3://B".toList []).2 _ rfl rfl).2 _
      rfl rfl

end Construction

section Delete

theorem azblob.ListBlobs_fold (pages : List azblob.Page) (acc : Strs) :
    pages.foldl (fun blobs resp => (blobs ++ resp.BlobItems) ++ resp.BlobPrefixes) acc
      = acc ++ pages.flatMap fun p => p.BlobItems ++ p.BlobPrefixes := by
  induction pages generalizing acc with
  | nil => simp
  | cons p ps ih =>
    rw [List.foldl_cons, ih, List.flatMap_cons]
    simp only [List.append_assoc]

theorem azblob.ListBlobs_eq {σ : Type} (s : azblob.Service σ) (pfx delimiter : Str) (st : σ)
    (h : (s.ContainerClient.ListBlobsHierarchy delimiter pfx st).err = none) :
    s.ListBlobs pfx delimiter st
      = .ok ((s.ContainerClient.ListBlobsHierarchy delimiter pfx st).pages.flatMap
          fun p => p.BlobItems ++ p.BlobPrefixes) := by
  unfold azblob.Service.ListBlobs
  simp only [h]
  rw [azblob.ListBlobs_fold, List.nil_append]

theorem fmt.Sprintf_delete_failures (other : Str → List Arg → Str) (F : Strs) :
    fmt.Sprintf other "failed to delete blobs %v".toList [.strs F]
      = "failed to delete blobs [".toList ++ strings.Join F [' '] ++ [']'] := by
  have h : fmt.Sprintf other "failed to delete blobs %v".toList [.strs F]
      = "failed to delete blobs ".toList ++ ((Arg.strs F).print ++ []) := rfl
  rw [h, List.append_nil]
  rfl

theorem Backend.recorder_fold (pager : azblob.Pager) (fails : Nat → Bool)
    (container serviceURL : Str) (L calls F : Strs) :
    L.foldl (azblob.Service.DeleteBlobs.step
        ⟨container, serviceURL, Backend.recorder pager fails⟩) (calls, F)
      = (calls ++ L,
          F ++ ((L.enumFrom calls.length).filter fun e => fails e.1).map Prod.snd) := by
  induction L generalizing calls F with
  | nil => simp
  | cons b L ih =>
    rw [List.foldl_cons]
    cases hf : fails calls.length
    · have e : azblob.Service.DeleteBlobs.step
          ⟨container, serviceURL, Backend.recorder pager fails⟩ (calls, F) b
          = (calls ++ [b], F) := by
        simp [azblob.Service.DeleteBlobs.step, Backend.recorder, hf]
      rw [e, ih]
      simp [hf]
    · have e : azblob.Service.DeleteBlobs.step
          ⟨container, serviceURL, Backend.recorder pager fails⟩ (calls, F) b
          = (calls ++ [b], F ++ [b]) := by
        simp [azblob.Service.DeleteBlobs.step, Backend.recorder, hf]
      rw [e, ih]
      simp [hf]

theorem Backend.failed_eq_nil (fails : Nat → Bool) (L : Strs) :
    ((L.enum.filter fun e => fails e.1).map Prod.snd) = [] ↔
      ∀ i, i < L.length → fails i = false := by
  rw [List.map_eq_nil_iff, List.filter_eq_nil_iff]
  constructor
  · intro h i hi
    have hm : (i, L[i]) ∈ L.enum := by
      rw [List.mk_mem_enum_iff_getElem?]
      exact List.getElem?_eq_getElem hi
    simpa using h _ hm
  · intro h e he
    rw [List.mem_enum_iff_getElem?] at he
    have hi : e.1 < L.length := by
      by_contra hc
      rw [List.getElem?_eq_none (Nat.le_of_not_lt hc)] at he
      cases he
    simp [h e.1 hi]

/-- C1: for every listing the backend returns for the prefix (any pages, no
listing error) and every assignment of failure to the delete calls,
`DeleteBlobs` issues exactly one delete call per listed entry, in listing
order; it returns an error exactly when some delete call failed, the error is
`failed to delete blobs` with exactly the entries whose delete failed, in
listing order; on an empty listing it issues no call and returns no error. -/
theorem DeleteBlobs_best_effort (pages : List azblob.Page) (fails : Nat → Bool)
    (container serviceURL blob : Str) :
    let s : azblob.Service Strs :=
      ⟨container, serviceURL, Backend.recorder ⟨pages, none⟩ fails⟩
    let listed := pages.flatMap fun p => p.BlobItems ++ p.BlobPrefixes
    let failed := (listed.enum.filter fun e => fails e.1).map Prod.snd
    s.ListBlobs blob [] [] = .ok listed ∧
    (s.DeleteBlobs blob []).2 = listed ∧
    ((s.DeleteBlobs blob []).1 = none ↔ ∀ i, i < listed.length → fails i = false) ∧
    (s.DeleteBlobs blob []).1 =
      (if failed = [] then none
       else some (.errorf "failed to delete blobs %v".toList [.strs failed])) ∧
    (∀ other, failed ≠ [] →
      (s.DeleteBlobs blob []).1.map (Err.Error other) =
        some ("failed to delete blobs [".toList ++ strings.Join failed [' '] ++ [']'])) ∧
    (listed = [] → s.DeleteBlobs blob [] = (none, [])) := by
  intro s listed failed
  have hl : s.ListBlobs blob [] [] = .ok listed :=
    azblob.ListBlobs_eq s blob [] [] rfl
  have hd : s.DeleteBlobs blob [] =
      (if failed = [] then none
       else some (.errorf "failed to delete blobs %v".toList [.strs failed]), listed) := by
    unfold azblob.Service.DeleteBlobs
    rw [hl]
    simp only [s, Backend.recorder_fold, List.nil_append, List.length_nil]
    by_cases hF : failed = []
    · have hF2 := hF
      simp only [failed, List.enum] at hF2
      simp [hF, hF2]
    · have hF2 := hF
      simp only [failed, List.enum] at hF2
      have hpos : 0 < (List.map Prod.snd
          (List.filter (fun e => fails e.1) (List.enumFrom 0 listed))).length :=
        List.length_pos.mpr hF2
      simp only [hpos, if_true, hF, if_false]
      rfl
  refine ⟨hl, by rw [hd], ?_, by rw [hd], ?_, ?_⟩
  · rw [hd, ← Backend.failed_eq_nil]
    show _ ↔ failed = []
    by_cases hF : failed = []
    · simp only [hF, if_true]
    · simp only [hF, if_false]
      constructor
      · intro h; cases h
      · intro h; exact absurd h (fun h => h)
  · intro other hF
    rw [hd]
    simp only [hF, if_false, Option.map_some', Err.Error, fmt.Sprintf_delete_failures]
  · intro hL
    rw [hd]
    have : failed = [] := by simp [failed, hL]
    simp [this, hL]

/-- The listing `a/1`, `a/2`, `a/3` with the second delete call failing: all
three deletes are issued and the error names exactly `a/2`. -/
theorem DeleteBlobs_best_effort_witness :
    azblob.Service.DeleteBlobs
        ⟨[], [], Backend.recorder
          ⟨[⟨["a/1".toList, "a/2".toList], []⟩, ⟨["a/3".toList], []⟩], none⟩ (fun i => i == 1)⟩
        "a".toList []
      = (some (.errorf "failed to delete blobs %v".toList [.strs ["a/2".toList]]),
          ["a/1".toList, "a/2".toList, "a/3".toList]) ∧
    azblob.Service.DeleteBlobs ⟨[], [], Backend.recorder ⟨[], none⟩ (fun _ => true)⟩
        "a".toList [] = (none, []) := by
  have h := DeleteBlobs_best_effort
    [⟨["a/1".toList, "a/2".toList], []⟩, ⟨["a/3".toList], []⟩] (fun i => i == 1) [] [] "a".toList
  have h0 := DeleteBlobs_best_effort [] (fun _ => true) [] [] "a".toList
  exact ⟨Prod.ext (h.2.2.2.1.trans (by decide)) (h.2.1.trans (by decide)), h0.2.2.2.2.2 rfl⟩

theorem Backend.rollup_no_delimiter (pfx key : Str) : Backend.rollup pfx [] key = none := by
  simp [Backend.rollup]

theorem Backend.directEntries_flat (keys : Strs) (pfx : Str) :
    Backend.directEntries keys pfx [] = keys.filter fun k => strings.HasPrefix k pfx := by
  simp [Backend.directEntries, Backend.rollup_no_delimiter]

theorem Backend.commonPrefixes_flat (keys : Strs) (pfx : Str) :
    Backend.commonPrefixes keys pfx [] = [] := by
  have h : Backend.rollup pfx [] = fun _ => none := funext (Backend.rollup_no_delimiter pfx)
  simp [Backend.commonPrefixes, h]

theorem Backend.container_fold (container serviceURL : Str) (L st F : Strs)
    (hn : L.Nodup) (hm : ∀ b ∈ L, b ∈ st) :
    L.foldl (azblob.Service.DeleteBlobs.step ⟨container, serviceURL, Backend.container⟩) (st, F)
      = (st.filter (fun k => decide (k ∉ L)), F) := by
  induction L generalizing st with
  | nil => simp
  | cons b L ih =>
    rw [List.foldl_cons]
    have hb : b ∈ st := hm b (List.mem_cons_self _ _)
    have e : azblob.Service.DeleteBlobs.step ⟨container, serviceURL, Backend.container⟩
        (st, F) b = (st.filter (fun k => k ≠ b), F) := by
      simp [azblob.Service.DeleteBlobs.step, Backend.container, hb]
    rw [List.nodup_cons] at hn
    rw [e, ih _ hn.2]
    · simp only [List.filter_filter, List.mem_cons, not_or, Prod.mk.injEq, and_true]
      apply List.filter_congr
      intro k _
      simp [Bool.and_comm]
    · intro b2 hb2
      rw [List.mem_filter]
      refine ⟨hm b2 (List.mem_cons_of_mem _ hb2), ?_⟩
      have : b2 ≠ b := fun h => hn.1 (h ▸ hb2)
      simpa using this

/-- C2 as stated fails: with root `r` and the blobs `r/a/1` and `r/ab`,
`Remove("a")` (normalized path `r/a`) succeeds and also removes the sibling
`r/ab`, which is neither `r/a` nor under `r/a/`. -/
theorem Remove_removes_sibling :
    azblob.BackupStoreDriver.Remove ⟨[], "r".toList, ⟨[], [], Backend.container⟩⟩ "a".toList
        ["r/a/1".toList, "r/ab".toList, "r/b".toList] = (none, ["r/b".toList]) ∧
    filepath.Join ["r".toList, "a".toList] = "r/a".toList ∧
    "r/ab".toList ≠ "r/a".toList ∧
    strings.HasPrefix "r/ab".toList ("r/a".toList ++ ['/']) = false := by
  decide

/-- C2, amended: for the azblob driver over a container holding a set of
blobs, with every backend call succeeding, `Remove(p)` returns no error and
removes exactly the keys that begin with the normalized path of `p` (root
joined with `p`) as a string: every key that does not begin with it is still
present, every key that does is gone. -/
theorem Remove_removes_prefixed_keys (destURL root container serviceURL p : Str)
    (keys : Strs) (hk : keys.Nodup) :
    let b : azblob.BackupStoreDriver Strs :=
      ⟨destURL, root, ⟨container, serviceURL, Backend.container⟩⟩
    b.Remove p keys
      = (none, keys.filter fun k => !strings.HasPrefix k (filepath.Join [root, p])) ∧
    ∀ k, k ∈ (b.Remove p keys).2 ↔
      k ∈ keys ∧ strings.HasPrefix k (filepath.Join [root, p]) = false := by
  intro b
  have hr : b.Remove p keys
      = (none, keys.filter fun k => !strings.HasPrefix k (filepath.Join [root, p])) := by
    have hl : b.service.ListBlobs (filepath.Join [root, p]) [] keys
        = .ok (keys.filter fun k => strings.HasPrefix k (filepath.Join [root, p])) := by
      rw [azblob.ListBlobs_eq _ _ _ _ rfl]
      simp [b, Backend.container, Backend.directEntries_flat, Backend.commonPrefixes_flat]
    unfold azblob.BackupStoreDriver.Remove azblob.Service.DeleteBlobs
    rw [show b.updatePath p = filepath.Join [root, p] from rfl, hl]
    simp only [b]
    rw [Backend.container_fold _ _ _ _ _ (hk.filter _)
      (fun x hx => (List.mem_filter.mp hx).1)]
    simp only [List.length_nil, Nat.lt_irrefl, if_false, Prod.mk.injEq, true_and]
    apply List.filter_congr
    intro k hkm
    simp [List.mem_filter, hkm]
  refine ⟨hr, fun k => ?_⟩
  rw [hr]
  simp [List.mem_filter]

/-- With root `r` and the blobs `r/a/1`, `r/a`, `r/b`, `Remove("a")` leaves
exactly `r/b`. -/
theorem Remove_removes_prefixed_keys_witness :
    ["r/a/1".toList, "r/a".toList, "r/b".toList].Nodup ∧
    azblob.BackupStoreDriver.Remove ⟨[], "r".toList, ⟨[], [], Backend.container⟩⟩ "a".toList
        ["r/a/1".toList, "r/a".toList, "r/b".toList] = (none, ["r/b".toList]) :=
  ⟨by decide,
    (Remove_removes_prefixed_keys [] "r".toList [] [] "a".toList
      ["r/a/1".toList, "r/a".toList, "r/b".toList] (by decide)).1.trans (by decide)⟩

end Delete

section Listing

theorem strings.HasPrefix_iff (s p : Str) : strings.HasPrefix s p = true ↔ p <+: s := by
  simp [strings.HasPrefix]

theorem strings.HasPrefix_eq_append {s p : Str} (h : strings.HasPrefix s p = true) :
    s = p ++ s.drop p.length :=
  (List.prefix_iff_eq_append.mp ((strings.HasPrefix_iff s p).mp h)).symm

theorem strings.TrimPrefix_append (p r : Str) : strings.TrimPrefix (p ++ r) p = r := by
  simp [strings.TrimPrefix, strings.HasPrefix]

theorem strings.TrimPrefix_of_HasPrefix {s p : Str} (h : strings.HasPrefix s p = true) :
    strings.TrimPrefix s p = s.drop p.length := by
  simp [strings.TrimPrefix, h]

theorem strings.TrimSuffix_append (r t : Str) : strings.TrimSuffix (r ++ t) t = r := by
  simp [strings.TrimSuffix, strings.HasSuffix]

theorem strings.TrimSuffix_slash_of_not_mem {r : Str} (h : '/' ∉ r) :
    strings.TrimSuffix r ['/'] = r := by
  have hs : strings.HasSuffix r ['/'] = false := by
    cases hc : strings.HasSuffix r ['/'] with
    | false => rfl
    | true =>
      exfalso
      have hsuf : ['/'] <:+ r := by simpa [strings.HasSuffix] using hc
      exact h (hsuf.subset (List.mem_singleton_self _))
  simp [strings.TrimSuffix, hs]

theorem Backend.firstSegment_not_mem (s : Str) : '/' ∉ Backend.firstSegment s := by
  intro h
  have := List.mem_takeWhile_imp h
  simp [filepath.IsPathSeparator] at this

theorem Backend.firstSegment_of_not_mem {s : Str} (h : '/' ∉ s) : Backend.firstSegment s = s := by
  unfold Backend.firstSegment
  rw [List.takeWhile_eq_self_iff]
  intro c hc
  have : c ≠ '/' := fun e => h (e ▸ hc)
  simpa [filepath.IsPathSeparator] using this

theorem Backend.cut_slash (s : Str) :
    (Backend.cut ['/'] s).map Prod.fst
      = if '/' ∈ s then some (Backend.firstSegment s) else none := by
  induction s with
  | nil => simp [Backend.cut]
  | cons c s ih =>
    by_cases hc : c = '/'
    · subst hc
      simp [Backend.cut, Backend.firstSegment, filepath.IsPathSeparator, List.isPrefixOf]
    · have hc2 : ¬ ('/' = c) := fun h => hc h.symm
      have e : (Backend.cut ['/'] (c :: s)).map Prod.fst
          = ((Backend.cut ['/'] s).map Prod.fst).map (c :: ·) := by
        simp [Backend.cut, List.isPrefixOf, hc2, Option.map_map, Function.comp_def]
      rw [e, ih]
      by_cases hm : '/' ∈ s
      · simp [hm, hc, Backend.firstSegment, filepath.IsPathSeparator]
      · simp [hm, hc2]

theorem Backend.rollup_slash (pfx key : Str) :
    Backend.rollup pfx ['/'] key
      = if '/' ∈ key.drop pfx.length then
          some (pfx ++ Backend.firstSegment (key.drop pfx.length) ++ ['/'])
        else none := by
  have h := Backend.cut_slash (key.drop pfx.length)
  unfold Backend.rollup
  simp only [List.cons_ne_nil, if_false]
  cases hc : Backend.cut ['/'] (key.drop pfx.length) with
  | none =>
    rw [hc] at h
    by_cases hm : '/' ∈ key.drop pfx.length
    · simp [hm] at h
    · simp [hm]
  | some r =>
    rw [hc] at h
    by_cases hm : '/' ∈ key.drop pfx.length
    · simp only [hm, if_true, Option.map_some', Option.some.injEq] at h
      simp [hm, h]
    · simp [hm] at h

theorem Backend.mem_directEntries (keys : Strs) (pfx k : Str) :
    k ∈ Backend.directEntries keys pfx ['/'] ↔
      k ∈ keys ∧ strings.HasPrefix k pfx = true ∧ '/' ∉ k.drop pfx.length := by
  unfold Backend.directEntries
  rw [List.mem_filter, Backend.rollup_slash]
  by_cases hm : '/' ∈ k.drop pfx.length <;> simp [hm]

theorem Backend.mem_commonPrefixes (keys : Strs) (pfx c : Str) :
    c ∈ Backend.commonPrefixes keys pfx ['/'] ↔
      ∃ k, k ∈ keys ∧ strings.HasPrefix k pfx = true ∧ '/' ∈ k.drop pfx.length ∧
        c = pfx ++ Backend.firstSegment (k.drop pfx.length) ++ ['/'] := by
  unfold Backend.commonPrefixes
  rw [List.mem_dedup, List.mem_filterMap]
  constructor
  · rintro ⟨k, hk, hr⟩
    rw [List.mem_filter] at hk
    rw [Backend.rollup_slash] at hr
    by_cases hm : '/' ∈ k.drop pfx.length
    · simp only [hm, if_true, Option.some.injEq] at hr
      exact ⟨k, hk.1, hk.2, hm, hr.symm⟩
    · simp [hm] at hr
  · rintro ⟨k, hk, hp, hm, rfl⟩
    refine ⟨k, List.mem_filter.mpr ⟨hk, hp⟩, ?_⟩
    rw [Backend.rollup_slash]
    simp [hm]

theorem foldl_collect {α : Type} (f : α → Str) (L : List α) (acc : Strs) :
    L.foldl (fun result x => if f x ≠ [] then result ++ [f x] else result) acc
      = acc ++ (L.map f).filter fun r => decide (r ≠ []) := by
  induction L generalizing acc with
  | nil => simp
  | cons x L ih =>
    rw [List.foldl_cons, ih]
    by_cases hx : f x = []
    · simp [hx]
    · simp [hx]

theorem azblob.azList_eq {σ : Type} (b : azblob.BackupStoreDriver σ) (listPath : Str) (st : σ)
    (h : (b.service.ContainerClient.ListBlobsHierarchy ['/']
      (b.updatePath listPath ++ ['/']) st).err = none) :
    b.List listPath st
      = .ok ((((b.service.ContainerClient.ListBlobsHierarchy ['/']
            (b.updatePath listPath ++ ['/']) st).pages.flatMap
              fun p => p.BlobItems ++ p.BlobPrefixes).map
            fun blob => strings.TrimSuffix
              (strings.TrimPrefix blob (b.updatePath listPath ++ ['/'])) ['/']).filter
          fun r => decide (r ≠ [])) := by
  unfold azblob.BackupStoreDriver.List
  simp only [azblob.ListBlobs_eq _ _ _ _ h]
  split
  · next h0 =>
    rw [List.length_eq_zero.mp h0]
    rfl
  · exact congrArg Except.ok (foldl_collect _ _ [])

theorem s3.s3List_eq {σ : Type} (b : s3.BackupStoreDriver σ) (listPath : Str) (st : σ)
    (P : Str)
    (hP : P = if !strings.HasSuffix (b.updatePath listPath) ['/']
      then b.updatePath listPath ++ ['/'] else b.updatePath listPath)
    (contents pfxs : Strs) (h : b.service.ListObjects P ['/'] st = .ok (contents, pfxs)) :
    b.List listPath st
      = .ok (((contents.map fun k => strings.TrimPrefix k P).filter fun r => decide (r ≠ []))
          ++ ((pfxs.map fun c => strings.TrimSuffix (strings.TrimPrefix c P) ['/']).filter
            fun r => decide (r ≠ []))) := by
  unfold s3.BackupStoreDriver.List
  simp only [← hP, h]
  split
  · next h0 =>
    rw [List.length_eq_zero.mp h0.1, List.length_eq_zero.mp h0.2]
    rfl
  · refine congrArg Except.ok ?_
    have h1 := foldl_collect (fun k => strings.TrimPrefix k P) contents []
    have h2 := foldl_collect (fun c => strings.TrimSuffix (strings.TrimPrefix c P) ['/']) pfxs
      ((contents.map fun k => strings.TrimPrefix k P).filter fun r => decide (r ≠ []))
    rw [List.nil_append] at h1
    rw [← h2, ← h1]

theorem Backend.name_of_directEntry {keys : Strs} {pfx k : Str}
    (h : k ∈ Backend.directEntries keys pfx ['/']) :
    k ∈ keys ∧ strings.HasPrefix k pfx = true ∧ '/' ∉ k.drop pfx.length ∧
    strings.TrimPrefix k pfx = k.drop pfx.length ∧
    strings.TrimSuffix (strings.TrimPrefix k pfx) ['/'] = k.drop pfx.length ∧
    Backend.firstSegment (k.drop pfx.length) = k.drop pfx.length := by
  obtain ⟨hk, hp, hm⟩ := (Backend.mem_directEntries keys pfx k).mp h
  refine ⟨hk, hp, hm, strings.TrimPrefix_of_HasPrefix hp, ?_,
    Backend.firstSegment_of_not_mem hm⟩
  rw [strings.TrimPrefix_of_HasPrefix hp, strings.TrimSuffix_slash_of_not_mem hm]

theorem Backend.name_of_commonPrefix {keys : Strs} {pfx c : Str}
    (h : c ∈ Backend.commonPrefixes keys pfx ['/']) :
    ∃ k, k ∈ keys ∧ strings.HasPrefix k pfx = true ∧ '/' ∈ k.drop pfx.length ∧
      c = pfx ++ Backend.firstSegment (k.drop pfx.length) ++ ['/'] ∧
      strings.TrimSuffix (strings.TrimPrefix c pfx) ['/']
        = Backend.firstSegment (k.drop pfx.length) := by
  obtain ⟨k, hk, hp, hm, rfl⟩ := (Backend.mem_commonPrefixes keys pfx c).mp h
  refine ⟨k, hk, hp, hm, rfl, ?_⟩
  rw [List.append_assoc, strings.TrimPrefix_append, strings.TrimSuffix_append]

theorem Backend.mem_children (keys : Strs) (pfx n : Str) :
    ((∃ k, k ∈ Backend.directEntries keys pfx ['/'] ∧ k.drop pfx.length = n) ∨
      (∃ c, c ∈ Backend.commonPrefixes keys pfx ['/'] ∧
        strings.TrimSuffix (strings.TrimPrefix c pfx) ['/'] = n)) ↔
    ∃ k, k ∈ keys ∧ strings.HasPrefix k pfx = true ∧
      Backend.firstSegment (k.drop pfx.length) = n := by
  constructor
  · rintro (⟨k, hk, rfl⟩ | ⟨c, hc, rfl⟩)
    · obtain ⟨h1, h2, _, _, _, h6⟩ := Backend.name_of_directEntry hk
      exact ⟨k, h1, h2, h6⟩
    · obtain ⟨k, h1, h2, _, _, h5⟩ := Backend.name_of_commonPrefix hc
      exact ⟨k, h1, h2, h5.symm⟩
  · rintro ⟨k, hk, hp, rfl⟩
    by_cases hm : '/' ∈ k.drop pfx.length
    · right
      have hc : pfx ++ Backend.firstSegment (k.drop pfx.length) ++ ['/']
          ∈ Backend.commonPrefixes keys pfx ['/'] :=
        (Backend.mem_commonPrefixes keys pfx _).mpr ⟨k, hk, hp, hm, rfl⟩
      refine ⟨_, hc, ?_⟩
      rw [List.append_assoc, strings.TrimPrefix_append, strings.TrimSuffix_append]
    · left
      exact ⟨k, (Backend.mem_directEntries keys pfx k).mpr ⟨hk, hp, hm⟩,
        (Backend.firstSegment_of_not_mem hm).symm⟩

theorem Backend.child_shape {pfx rest n : Str} (hP : '/' ∈ pfx)
    (h : Backend.firstSegment rest = n) : '/' ∉ n ∧ strings.HasPrefix n pfx = false := by
  have hn : '/' ∉ n := h ▸ Backend.firstSegment_not_mem rest
  refine ⟨hn, ?_⟩
  cases hc : strings.HasPrefix n pfx with
  | false => rfl
  | true => exact absurd (((strings.HasPrefix_iff n pfx).mp hc).subset hP) hn

theorem azblob.mem_pages {pages : List azblob.Page} (x : Str) :
    x ∈ (pages.flatMap fun p => p.BlobItems ++ p.BlobPrefixes) ↔
      x ∈ (pages.flatMap fun p => p.BlobItems) ∨ x ∈ pages.flatMap fun p => p.BlobPrefixes := by
  simp only [List.mem_flatMap, List.mem_append]
  constructor
  · rintro ⟨p, hp, h | h⟩
    · exact Or.inl ⟨p, hp, h⟩
    · exact Or.inr ⟨p, hp, h⟩
  · rintro (⟨p, hp, h⟩ | ⟨p, hp, h⟩)
    · exact ⟨p, hp, Or.inl h⟩
    · exact ⟨p, hp, Or.inr h⟩

theorem Backend.mem_children_azblob (keys : Strs) (pfx n : Str) :
    (∃ blob, (blob ∈ Backend.directEntries keys pfx ['/'] ∨
        blob ∈ Backend.commonPrefixes keys pfx ['/']) ∧
      strings.TrimSuffix (strings.TrimPrefix blob pfx) ['/'] = n) ↔
    ∃ k, k ∈ keys ∧ strings.HasPrefix k pfx = true ∧
      Backend.firstSegment (k.drop pfx.length) = n := by
  rw [← Backend.mem_children]
  constructor
  · rintro ⟨blob, hb | hb, hn⟩
    · exact Or.inl ⟨blob, hb, (Backend.name_of_directEntry hb).2.2.2.2.1.symm.trans hn⟩
    · exact Or.inr ⟨blob, hb, hn⟩
  · rintro (⟨k, hk, hn⟩ | ⟨c, hc, hn⟩)
    · exact ⟨k, Or.inl hk, (Backend.name_of_directEntry hk).2.2.2.2.1.trans hn⟩
    · exact ⟨c, Or.inr hc, hn⟩

theorem Backend.mem_children_s3 (keys : Strs) (pfx n : Str) :
    ((∃ k, k ∈ Backend.directEntries keys pfx ['/'] ∧ strings.TrimPrefix k pfx = n) ∨
      (∃ c, c ∈ Backend.commonPrefixes keys pfx ['/'] ∧
        strings.TrimSuffix (strings.TrimPrefix c pfx) ['/'] = n)) ↔
    ∃ k, k ∈ keys ∧ strings.HasPrefix k pfx = true ∧
      Backend.firstSegment (k.drop pfx.length) = n := by
  rw [← Backend.mem_children]
  constructor
  · rintro (⟨k, hk, hn⟩ | h)
    · exact Or.inl ⟨k, hk, (Backend.name_of_directEntry hk).2.2.2.1.symm.trans hn⟩
    · exact Or.inr h
  · rintro (⟨k, hk, hn⟩ | h)
    · exact Or.inl ⟨k, hk, (Backend.name_of_directEntry hk).2.2.2.1.trans hn⟩
    · exact Or.inr h

theorem s3.slash_mem_listPrefix (path : Str) :
    '/' ∈ (if !strings.HasSuffix path ['/'] then path ++ ['/'] else path) := by
  cases h : strings.HasSuffix path ['/'] with
  | false => simp
  | true =>
    have hsuf : ['/'] <:+ path := by simpa [strings.HasSuffix] using h
    simpa using hsuf.subset (List.mem_singleton_self _)

/-- C3: for both drivers, when the backend's delimiter listing under the
normalized prefix returns the direct entries and the common prefixes of the
stored keys (for azblob in any paging), `List` succeeds and the names it
returns are exactly the non-empty first path segments, after the normalized
prefix, of the stored keys under that prefix; every returned name is
non-empty, contains no `/` and does not begin with the normalized prefix. -/
theorem List_immediate_children :
    (∀ (σ : Type) (b : azblob.BackupStoreDriver σ) (listPath : Str) (st : σ) (keys : Strs),
      (b.service.ContainerClient.ListBlobsHierarchy ['/']
        (b.updatePath listPath ++ ['/']) st).err = none →
      ((b.service.ContainerClient.ListBlobsHierarchy ['/']
        (b.updatePath listPath ++ ['/']) st).pages.flatMap fun p => p.BlobItems)
          = Backend.directEntries keys (b.updatePath listPath ++ ['/']) ['/'] →
      ((b.service.ContainerClient.ListBlobsHierarchy ['/']
        (b.updatePath listPath ++ ['/']) st).pages.flatMap fun p => p.BlobPrefixes)
          = Backend.commonPrefixes keys (b.updatePath listPath ++ ['/']) ['/'] →
      ∃ names, b.List listPath st = .ok names ∧
        (∀ n, n ∈ names ↔ n ≠ [] ∧ ∃ k, k ∈ keys ∧
          strings.HasPrefix k (b.updatePath listPath ++ ['/']) = true ∧
          Backend.firstSegment (k.drop (b.updatePath listPath ++ ['/']).length) = n) ∧
        (∀ n, n ∈ names → n ≠ [] ∧ '/' ∉ n ∧
          strings.HasPrefix n (b.updatePath listPath ++ ['/']) = false)) ∧
    (∀ (σ : Type) (b : s3.BackupStoreDriver σ) (listPath : Str) (st : σ) (keys : Strs)
        (P : Str),
      P = (if !strings.HasSuffix (b.updatePath listPath) ['/']
        then b.updatePath listPath ++ ['/'] else b.updatePath listPath) →
      b.service.ListObjects P ['/'] st
        = .ok (Backend.directEntries keys P ['/'], Backend.commonPrefixes keys P ['/']) →
      ∃ names, b.List listPath st = .ok names ∧
        (∀ n, n ∈ names ↔ n ≠ [] ∧ ∃ k, k ∈ keys ∧ strings.HasPrefix k P = true ∧
          Backend.firstSegment (k.drop P.length) = n) ∧
        (∀ n, n ∈ names → n ≠ [] ∧ '/' ∉ n ∧ strings.HasPrefix n P = false)) := by
  constructor
  · intro σ b listPath st keys herr hD hC
    have hchar : ∀ n, n ∈ ((((b.service.ContainerClient.ListBlobsHierarchy ['/']
            (b.updatePath listPath ++ ['/']) st).pages.flatMap
              fun p => p.BlobItems ++ p.BlobPrefixes).map
            fun blob => strings.TrimSuffix
              (strings.TrimPrefix blob (b.updatePath listPath ++ ['/'])) ['/']).filter
          fun r => decide (r ≠ [])) ↔
        n ≠ [] ∧ ∃ k, k ∈ keys ∧
          strings.HasPrefix k (b.updatePath listPath ++ ['/']) = true ∧
          Backend.firstSegment (k.drop (b.updatePath listPath ++ ['/']).length) = n := by
      intro n
      rw [List.mem_filter, List.mem_map, ← Backend.mem_children_azblob]
      simp only [azblob.mem_pages, hD, hC, decide_eq_true_eq]
      exact and_comm
    refine ⟨_, azblob.azList_eq b listPath st herr, hchar, ?_⟩
    intro n hn
    obtain ⟨hne, k, _, _, hseg⟩ := (hchar n).mp hn
    exact ⟨hne, Backend.child_shape (by simp) hseg⟩
  · intro σ b listPath st keys P hP hl
    have hchar : ∀ n, n ∈ (((Backend.directEntries keys P ['/']).map
            fun k => strings.TrimPrefix k P).filter fun r => decide (r ≠ []))
          ++ (((Backend.commonPrefixes keys P ['/']).map
            fun c => strings.TrimSuffix (strings.TrimPrefix c P) ['/']).filter
              fun r => decide (r ≠ [])) ↔
        n ≠ [] ∧ ∃ k, k ∈ keys ∧ strings.HasPrefix k P = true ∧
          Backend.firstSegment (k.drop P.length) = n := by
      intro n
      rw [List.mem_append, List.mem_filter, List.mem_filter, List.mem_map, List.mem_map,
        ← Backend.mem_children_s3]
      simp only [decide_eq_true_eq]
      constructor
      · rintro (⟨h, hne⟩ | ⟨h, hne⟩)
        · exact ⟨hne, Or.inl h⟩
        · exact ⟨hne, Or.inr h⟩
      · rintro ⟨hne, h | h⟩
        · exact Or.inl ⟨h, hne⟩
        · exact Or.inr ⟨h, hne⟩
    refine ⟨_, s3.s3List_eq b listPath st P hP _ _ hl, hchar, ?_⟩
    intro n hn
    obtain ⟨hne, k, _, _, hseg⟩ := (hchar n).mp hn
    exact ⟨hne, Backend.child_shape (hP ▸ s3.slash_mem_listPrefix _) hseg⟩

/-- For the keys `dir/x` and `dir/sub/y` (drivers with an empty root) and for
`r/dir/x` and `r/dir/sub/y` (root `r`), `List("dir/")` is `x`, `sub` in both
drivers. -/
theorem List_immediate_children_witness :
    azblob.BackupStoreDriver.List ⟨[], [], ⟨[], [], Backend.container⟩⟩ "dir/".toList
        ["dir/x".toList, "dir/sub/y".toList] = .ok ["x".toList, "sub".toList] ∧
    s3.BackupStoreDriver.List ⟨[], [], Backend.bucket [] []⟩ "dir/".toList
        ["dir/x".toList, "dir/sub/y".toList] = .ok ["x".toList, "sub".toList] ∧
    azblob.BackupStoreDriver.List ⟨[], "r".toList, ⟨[], [], Backend.container⟩⟩ "dir/".toList
        ["r/dir/x".toList, "r/dir/sub/y".toList] = .ok ["x".toList, "sub".toList] ∧
    s3.BackupStoreDriver.List ⟨[], "r".toList, Backend.bucket [] []⟩ "dir/".toList
        ["r/dir/x".toList, "r/dir/sub/y".toList] = .ok ["x".toList, "sub".toList] := by
  have h := List_immediate_children
  obtain ⟨names, hn, _, _⟩ := h.1 Strs ⟨[], [], ⟨[], [], Backend.container⟩⟩ "dir/".toList
    ["dir/x".toList, "dir/sub/y".toList] ["dir/x".toList, "dir/sub/y".toList] rfl
    (by decide) (by decide)
  obtain ⟨names2, hn2, _, _⟩ := h.2 Strs ⟨[], [], Backend.bucket [] []⟩ "dir/".toList
    ["dir/x".toList, "dir/sub/y".toList] ["dir/x".toList, "dir/sub/y".toList] "dir/".toList
    (by decide) rfl
  have e : names = ["x".toList, "sub".toList] := Except.ok.inj (hn.symm.trans rfl)
  rw [e] at hn
  have e2 : names2 = ["x".toList, "sub".toList] := Except.ok.inj (hn2.symm.trans rfl)
  rw [e2] at hn2
  exact ⟨hn, hn2, rfl, rfl⟩

theorem azblob.pages_perm (pages : List azblob.Page) :
    (pages.flatMap fun p => p.BlobItems ++ p.BlobPrefixes).Perm
      ((pages.flatMap fun p => p.BlobItems) ++ pages.flatMap fun p => p.BlobPrefixes) := by
  induction pages with
  | nil => simp
  | cons p ps ih =>
    simp only [List.flatMap_cons, List.append_assoc]
    exact (List.Perm.append_left _ ((List.Perm.append_left _ ih).trans
      (List.perm_append_comm_assoc _ _ _)))

theorem Backend.names_nodup_iff (keys : Strs) (pfx : Str) (hk : keys.Nodup) (f : Str → Str)
    (hf : ∀ k, k ∈ Backend.directEntries keys pfx ['/'] → f k = k.drop pfx.length) :
    ((((Backend.directEntries keys pfx ['/']).map f).filter fun r => decide (r ≠ []))
      ++ (((Backend.commonPrefixes keys pfx ['/']).map
          fun c => strings.TrimSuffix (strings.TrimPrefix c pfx) ['/']).filter
            fun r => decide (r ≠ []))).Nodup ↔ ¬ Backend.clash keys pfx := by
  have hD : ((Backend.directEntries keys pfx ['/']).map f).Nodup := by
    refine List.Nodup.map_on ?_ (hk.filter _)
    intro x hx y hy hxy
    rw [hf x hx, hf y hy] at hxy
    rw [strings.HasPrefix_eq_append (Backend.name_of_directEntry hx).2.1,
      strings.HasPrefix_eq_append (Backend.name_of_directEntry hy).2.1, hxy]
  have hC : ((Backend.commonPrefixes keys pfx ['/']).map
      fun c => strings.TrimSuffix (strings.TrimPrefix c pfx) ['/']).Nodup := by
    refine List.Nodup.map_on ?_ (List.nodup_dedup _)
    intro x hx y hy hxy
    obtain ⟨k1, _, _, _, e1, n1⟩ := Backend.name_of_commonPrefix hx
    obtain ⟨k2, _, _, _, e2, n2⟩ := Backend.name_of_commonPrefix hy
    simp only at hxy
    rw [n1, n2] at hxy
    rw [e1, e2, hxy]
  rw [List.nodup_append]
  simp only [hD.filter _, hC.filter _, true_and]
  constructor
  · rintro hdis ⟨k1, hk1, k2, hk2, hp1, hp2, hne, hm1, hm2, hseg⟩
    have hd1 : k1 ∈ Backend.directEntries keys pfx ['/'] :=
      (Backend.mem_directEntries keys pfx k1).mpr ⟨hk1, hp1, hm1⟩
    have hc2 : pfx ++ Backend.firstSegment (k2.drop pfx.length) ++ ['/']
        ∈ Backend.commonPrefixes keys pfx ['/'] :=
      (Backend.mem_commonPrefixes keys pfx _).mpr ⟨k2, hk2, hp2, hm2, rfl⟩
    refine hdis (a := k1.drop pfx.length) ?_ ?_
    · rw [List.mem_filter, List.mem_map]
      exact ⟨⟨k1, hd1, hf k1 hd1⟩, by simpa using hne⟩
    · rw [List.mem_filter, List.mem_map]
      refine ⟨⟨_, hc2, ?_⟩, by simpa using hne⟩
      rw [List.append_assoc, strings.TrimPrefix_append, strings.TrimSuffix_append, hseg]
  · intro hno n hn1 hn2
    rw [List.mem_filter, List.mem_map] at hn1 hn2
    obtain ⟨⟨k1, hd1, rfl⟩, hne⟩ := hn1
    obtain ⟨⟨c, hc, hcn⟩, _⟩ := hn2
    obtain ⟨h1, h2, h3, _, _, _⟩ := Backend.name_of_directEntry hd1
    obtain ⟨k2, g1, g2, g3, _, g5⟩ := Backend.name_of_commonPrefix hc
    rw [hf k1 hd1] at hne hcn
    exact hno ⟨k1, h1, k2, g1, h2, g2, by simpa using hne, h3, g3, g5.symm.trans hcn⟩

/-- C9 as stated fails: with the keys `r/dir/sub` and `r/dir/sub/y` (root `r`),
`List("dir")` returns the name `sub` twice in both drivers. -/
theorem List_returns_name_twice :
    azblob.BackupStoreDriver.List ⟨[], "r".toList, ⟨[], [], Backend.container⟩⟩ "dir".toList
        ["r/dir/sub".toList, "r/dir/sub/y".toList] = .ok ["sub".toList, "sub".toList] ∧
    s3.BackupStoreDriver.List ⟨[], "r".toList, Backend.bucket [] []⟩ "dir".toList
        ["r/dir/sub".toList, "r/dir/sub/y".toList] = .ok ["sub".toList, "sub".toList] ∧
    ¬ ["sub".toList, "sub".toList].Nodup :=
  ⟨rfl, rfl, by decide⟩

/-- C9, amended: for both drivers, over a set of stored keys listed by the
backend as direct entries and common prefixes (each once), the list returned
by `List` contains no name twice exactly when no object directly under the
normalized prefix and deeper key under it reduce to the same child name; when
they do, the name is returned twice. -/
theorem List_nodup_iff :
    (∀ (σ : Type) (b : azblob.BackupStoreDriver σ) (listPath : Str) (st : σ) (keys : Strs),
      keys.Nodup →
      (b.service.ContainerClient.ListBlobsHierarchy ['/']
        (b.updatePath listPath ++ ['/']) st).err = none →
      ((b.service.ContainerClient.ListBlobsHierarchy ['/']
        (b.updatePath listPath ++ ['/']) st).pages.flatMap fun p => p.BlobItems)
          = Backend.directEntries keys (b.updatePath listPath ++ ['/']) ['/'] →
      ((b.service.ContainerClient.ListBlobsHierarchy ['/']
        (b.updatePath listPath ++ ['/']) st).pages.flatMap fun p => p.BlobPrefixes)
          = Backend.commonPrefixes keys (b.updatePath listPath ++ ['/']) ['/'] →
      ∃ names, b.List listPath st = .ok names ∧
        (names.Nodup ↔ ¬ Backend.clash keys (b.updatePath listPath ++ ['/']))) ∧
    (∀ (σ : Type) (b : s3.BackupStoreDriver σ) (listPath : Str) (st : σ) (keys : Strs)
        (P : Str),
      keys.Nodup →
      P = (if !strings.HasSuffix (b.updatePath listPath) ['/']
        then b.updatePath listPath ++ ['/'] else b.updatePath listPath) →
      b.service.ListObjects P ['/'] st
        = .ok (Backend.directEntries keys P ['/'], Backend.commonPrefixes keys P ['/']) →
      ∃ names, b.List listPath st = .ok names ∧ (names.Nodup ↔ ¬ Backend.clash keys P)) := by
  constructor
  · intro σ b listPath st keys hk herr hD hC
    refine ⟨_, azblob.azList_eq b listPath st herr, ?_⟩
    rw [← Backend.names_nodup_iff keys _ hk
      (fun blob => strings.TrimSuffix
        (strings.TrimPrefix blob (b.updatePath listPath ++ ['/'])) ['/'])
      (fun k hkd => (Backend.name_of_directEntry hkd).2.2.2.2.1)]
    rw [← List.filter_append, ← List.map_append, ← hD, ← hC]
    exact List.Perm.nodup_iff (((azblob.pages_perm _).map _).filter _)
  · intro σ b listPath st keys P hk hP hl
    refine ⟨_, s3.s3List_eq b listPath st P hP _ _ hl, ?_⟩
    exact Backend.names_nodup_iff keys P hk (fun k => strings.TrimPrefix k P)
      (fun k hkd => (Backend.name_of_directEntry hkd).2.2.2.1)

/-- With the keys `r/dir/x` and `r/dir/sub/y` (root `r`) nothing clashes and
`List("dir")` is `x`, `sub` in both drivers, without a repeated name. -/
theorem List_nodup_iff_witness :
    ["r/dir/x".toList, "r/dir/sub/y".toList].Nodup ∧
    ¬ Backend.clash ["r/dir/x".toList, "r/dir/sub/y".toList] "r/dir/".toList ∧
    (∃ names, azblob.BackupStoreDriver.List ⟨[], "r".toList, ⟨[], [], Backend.container⟩⟩
        "dir".toList ["r/dir/x".toList, "r/dir/sub/y".toList] = .ok names ∧ names.Nodup) ∧
    (∃ names, s3.BackupStoreDriver.List ⟨[], "r".toList, Backend.bucket [] []⟩
        "dir".toList ["r/dir/x".toList, "r/dir/sub/y".toList] = .ok names ∧ names.Nodup) := by
  have h := List_nodup_iff
  have hc : ¬ Backend.clash ["r/dir/x".toList, "r/dir/sub/y".toList] "r/dir/".toList := by
    decide
  obtain ⟨names, hn, hiff⟩ := h.1 Strs ⟨[], "r".toList, ⟨[], [], Backend.container⟩⟩
    "dir".toList ["r/dir/x".toList, "r/dir/sub/y".toList]
    ["r/dir/x".toList, "r/dir/sub/y".toList] (by decide) rfl (by decide) (by decide)
  obtain ⟨names2, hn2, hiff2⟩ := h.2 Strs ⟨[], "r".toList, Backend.bucket [] []⟩
    "dir".toList ["r/dir/x".toList, "r/dir/sub/y".toList]
    ["r/dir/x".toList, "r/dir/sub/y".toList] "r/dir/".toList (by decide) (by decide) rfl
  exact ⟨by decide, hc, ⟨names, hn, hiff.mpr hc⟩, ⟨names2, hn2, hiff2.mpr hc⟩⟩

end Listing

end Backupstore
